import Mathlib

/-!
# Verification of vfetcher's core batch-download logic

Shallow embedding of `src/vfetcher/utils.py`:

* `extract_video_id`      (utils.py, lines 41-55)
* `get_downloaded_video_ids` (utils.py, lines 58-69)
* `filter_already_downloaded` (utils.py, lines 72-93)
* `download_videos`       (utils.py, lines 117-197)

External collaborators are modelled as follows.

* `urllib.parse.urlparse` / `parse_qs` are embedded from CPython's
  `Lib/urllib/parse.py` (`urlsplit`, `_splitnetloc`, `_splitparams`,
  `_hostinfo`, `parse_qsl`, `unquote`): scheme detection, netloc/path/params/
  query/fragment splitting, the `Invalid IPv6 URL` `ValueError` on a netloc
  with mismatched square brackets, hostname extraction with ASCII
  lowercasing, and plus/percent decoding of query names and values.  The
  model is exact on ASCII inputs without square brackets and whose
  percent-escapes denote single ASCII bytes; outside that domain two
  collaborator behaviors are approximated, and the parsing claims are scoped
  accordingly: (1) `_checknetloc`, which for a *non-ASCII* netloc raises
  `ValueError` when NFKC normalization introduces a URL delimiter, is
  modelled conservatively as rejecting every non-ASCII netloc (exact on
  ASCII netlocs, where CPython returns early); (2) multi-byte UTF-8
  percent-escape runs decode bytewise here rather than through
  `bytes.decode("utf-8", "replace")`, and the newer `_check_bracketed_host`
  validation of a *matched* bracketed host is elided.
* `yt_dlp.YoutubeDL.download` is an oracle `fetchOk : Nat -> String -> Bool`
  giving each item's outcome (`false` = the fetcher raises).
* `rich.progress.Progress` is a trace of `PEvent`s emitted by the loop.
* `random.uniform(0, jitter)` is an oracle `rand : Nat -> Rat` giving the
  draw used before starting item `i+1`; uniformity itself is not modelled,
  only the draws' values.
* The filesystem directory is a list of `DirEntry` (name, regular-file flag),
  the direct children seen by `Path.iterdir()`.

Python `float` arithmetic for delays is modelled over `Rat`.
-/

/-- Python `s.startswith(p)` on explicit character lists. -/
def pyStartswithL : List Char → List Char → Bool
  | _, [] => true
  | [], _ :: _ => false
  | c :: cs, p :: ps => c == p && pyStartswithL cs ps

/-- Python `s.startswith(p)`. -/
def pyStartswith (s p : String) : Bool :=
  pyStartswithL s.data p.data

/-- ASCII lowercase letter test (Python `c in ascii_lowercase`). -/
def asciiLower (c : Char) : Bool := 'a' ≤ c && c ≤ 'z'

/-- ASCII uppercase letter test. -/
def asciiUpper (c : Char) : Bool := 'A' ≤ c && c ≤ 'Z'

/-- ASCII letter test (Python `c.isascii() and c.isalpha()`). -/
def asciiAlpha (c : Char) : Bool := asciiLower c || asciiUpper c

/-- ASCII digit test. -/
def asciiDigit (c : Char) : Bool := '0' ≤ c && c ≤ '9'

/-- CPython `scheme_chars = ascii_letters + digits + '+-.'`. -/
def schemeChar (c : Char) : Bool :=
  asciiAlpha c || asciiDigit c || c == '+' || c == '-' || c == '.'

/-- ASCII lowercasing of one character (Python `str.lower` restricted to
ASCII, which is all the hostname comparisons in the source need). -/
def asciiToLower (c : Char) : Char :=
  if asciiUpper c then Char.ofNat (c.toNat + 32) else c

/-- Python `c.isascii()`: code point below 128. -/
def asciiChar (c : Char) : Bool := c.toNat ≤ 127

/-- CPython `_WHATWG_C0_CONTROL_OR_SPACE` membership: code points `<= 0x20`. -/
def c0ControlOrSpace (c : Char) : Bool := c.toNat ≤ 32

/-- CPython `_UNSAFE_URL_BYTES_TO_REMOVE` membership: tab, CR, LF. -/
def unsafeUrlByte (c : Char) : Bool := c == '\t' || c == '\r' || c == '\n'

/-- Result record of `urllib.parse.urlparse` (the fields the source reads). -/
structure PyParseResult where
  scheme : List Char
  netloc : List Char
  path : List Char
  params : List Char
  query : List Char
  fragment : List Char
deriving Repr, DecidableEq

/-- CPython scheme detection in `urlsplit`: if a `':'` occurs at a positive
index and everything before it is scheme characters starting with an ASCII
letter, split off the lowercased scheme.  Returns `(scheme, rest)`. -/
def splitScheme (url : List Char) : List Char × List Char :=
  let pre := url.takeWhile (fun c => c ≠ ':')
  if pre.length < url.length ∧ pre ≠ [] ∧
      asciiAlpha (pre.headD ' ') = true ∧ pre.all schemeChar = true then
    (pre.map asciiToLower, url.drop (pre.length + 1))
  else
    ([], url)

/-- CPython `_splitnetloc(url, 2)`: the netloc runs from index 2 up to the
first of `'/'`, `'?'`, `'#'`; the remainder (delimiter included) follows. -/
def splitNetloc (url : List Char) : List Char × List Char :=
  let rest := url.drop 2
  (rest.takeWhile (fun c => c ≠ '/' ∧ c ≠ '?' ∧ c ≠ '#'),
   rest.dropWhile (fun c => c ≠ '/' ∧ c ≠ '?' ∧ c ≠ '#'))

/-- CPython `urlsplit`'s netloc step: `if url[:2] == '//': netloc, url =
_splitnetloc(url, 2)`, else no netloc. -/
def pyNetlocSplit (url : List Char) : List Char × List Char :=
  if pyStartswithL url ['/', '/'] then splitNetloc url else ([], url)

/-- CPython `uses_params` (schemes whose path may carry `;params`). -/
def usesParams : List (List Char) :=
  [[], ['f','t','p'], ['h','d','l'], ['p','r','o','s','p','e','r','o'],
   ['h','t','t','p'], ['i','m','a','p'], ['h','t','t','p','s'],
   ['s','h','t','t','p'], ['r','t','s','p'], ['r','t','s','p','s'],
   ['r','t','s','p','u'], ['s','i','p'], ['s','i','p','s'],
   ['m','m','s'], ['s','f','t','p'], ['t','e','l']]

/-- CPython `_splitparams(url)`: split `;params` off the last path segment.
Only called when `';' ∈ url`. -/
def splitParams (url : List Char) : List Char × List Char :=
  if '/' ∈ url then
    -- search for ';' only from the last '/' onwards
    let afterRev := url.reverse.takeWhile (fun c => c ≠ '/')
    let lastSeg := afterRev.reverse
    let upto := (url.reverse.dropWhile (fun c => c ≠ '/')).reverse
    let a1 := lastSeg.takeWhile (fun c => c ≠ ';')
    let a2 := lastSeg.dropWhile (fun c => c ≠ ';')
    match a2 with
    | [] => (url, [])
    | _ :: tl => (upto ++ a1, tl)
  else
    (url.takeWhile (fun c => c ≠ ';'), (url.dropWhile (fun c => c ≠ ';')).drop 1)

/-- CPython `urlsplit` followed by `urlparse`'s params split, on the inputs the
source feeds it (default `scheme=''`, `allow_fragments=True`).  Returns
`Except` to model the `ValueError`s `urlsplit` raises: `"Invalid IPv6 URL"`
on a netloc with mismatched square brackets, and the `_checknetloc` NFKC
error.  `_checknetloc` returns immediately on an empty or all-ASCII netloc
and raises for a non-ASCII netloc whose NFKC normalization introduces a URL
delimiter; the Unicode NFKC table is outside this embedding, so the model
conservatively rejects every non-ASCII netloc (exact on ASCII netlocs). -/
def pyUrlparse (urlIn : String) : Except String PyParseResult :=
  let url0 := urlIn.data.dropWhile c0ControlOrSpace
  let url1 := url0.filter (fun c => unsafeUrlByte c = false)
  let sp := splitScheme url1
  let nl := pyNetlocSplit sp.2
  if ('[' ∈ nl.1 ∧ ']' ∉ nl.1) ∨ (']' ∈ nl.1 ∧ '[' ∉ nl.1) then
    .error "Invalid IPv6 URL"
  else if nl.1 ≠ [] ∧ nl.1.all asciiChar = false then
    .error "netloc contains invalid characters under NFKC normalization"
  else
    let url4 := nl.2.takeWhile (fun c => c ≠ '#')
    let fragment := (nl.2.dropWhile (fun c => c ≠ '#')).drop 1
    let url5 := url4.takeWhile (fun c => c ≠ '?')
    let query := (url4.dropWhile (fun c => c ≠ '?')).drop 1
    let pp :=
      if sp.1 ∈ usesParams ∧ ';' ∈ url5 then splitParams url5 else (url5, [])
    .ok ⟨sp.1, nl.1, pp.1, pp.2, query, fragment⟩

/-- CPython `SplitResult._hostinfo`/`hostname`: part of the netloc after the
last `'@'`; a bracketed host is the part between `'['` and `']'`, otherwise
everything before the first `':'`; lowercased; `None` when empty. -/
def pyHostname (netloc : List Char) : Option (List Char) :=
  let hostinfo := (netloc.reverse.takeWhile (fun c => c ≠ '@')).reverse
  let host :=
    if '[' ∈ hostinfo then
      ((hostinfo.dropWhile (fun c => c ≠ '[')).drop 1).takeWhile (fun c => c ≠ ']')
    else
      hostinfo.takeWhile (fun c => c ≠ ':')
  if host = [] then none else some (host.map asciiToLower)

/-- One hexadecimal digit, as accepted by CPython's `_hextobyte` table
(both letter cases, exactly one digit — no signs or whitespace). -/
def hexVal (c : Char) : Option Nat :=
  if '0' ≤ c ∧ c ≤ '9' then some (c.toNat - '0'.toNat)
  else if 'a' ≤ c ∧ c ≤ 'f' then some (c.toNat - 'a'.toNat + 10)
  else if 'A' ≤ c ∧ c ≤ 'F' then some (c.toNat - 'A'.toNat + 10)
  else none

/-- CPython `unquote`: each `%` followed by two hex digits becomes the byte
they denote; a `%` not followed by a valid pair stays literal.  Bytewise
model of the UTF-8 byte-run decoding: exact whenever every escape denotes an
ASCII byte (`< 0x80`). -/
def pyUnquote : List Char → List Char
  | [] => []
  | '%' :: a :: b :: rest =>
    match hexVal a, hexVal b with
    | some x, some y => Char.ofNat (16 * x + y) :: pyUnquote rest
    | _, _ => '%' :: pyUnquote (a :: b :: rest)
  | c :: rest => c :: pyUnquote rest

/-- CPython `unquote(s.replace('+', ' '))`, as `parse_qsl` applies to each
field name and value. -/
def pyUnquotePlus (cs : List Char) : List Char :=
  pyUnquote (cs.map fun c => if c = '+' then ' ' else c)

/-- Every percent-escape in the list denotes a single ASCII byte: the domain
on which `pyUnquote` agrees exactly with CPython's UTF-8 decoding. -/
def singleByteEscapes : List Char → Bool
  | [] => true
  | '%' :: a :: b :: rest =>
    match hexVal a, hexVal b with
    | some x, some y => decide (16 * x + y ≤ 127) && singleByteEscapes rest
    | _, _ => singleByteEscapes (a :: b :: rest)
  | _ :: rest => singleByteEscapes rest

/-- CPython `parse_qsl(query)` with the source's default arguments
(`keep_blank_values=False`, separator `'&'`): split on `'&'`, drop empty
fields, drop fields without `'='`, drop fields whose raw value is empty;
plus/percent-decode each kept name and value. -/
def pyParseQsl (query : List Char) : List (List Char × List Char) :=
  (query.splitOn '&').filterMap fun field =>
    match field.dropWhile (fun c => c ≠ '=') with
    | [] => none                     -- no '=' in the field
    | _ :: [] => none                -- empty value
    | _ :: v => some (pyUnquotePlus (field.takeWhile (fun c => c ≠ '=')),
                      pyUnquotePlus v)

/-- `parse_qs(query).get("v", [vid])[0]` from the source: the first value
bound to key `"v"`, else the fallback. -/
def firstVParam (query : List Char) (fallback : List Char) : List Char :=
  match (pyParseQsl query).find? (fun p => p.1 == ['v']) with
  | some p => p.2
  | none => fallback

instance {ε α : Type} [DecidableEq ε] [DecidableEq α] : DecidableEq (Except ε α) :=
  fun a b =>
    match a, b with
    | .error e, .error f =>
      if h : e = f then .isTrue (by rw [h]) else .isFalse (by simp [h])
    | .error _, .ok _ => .isFalse (by simp)
    | .ok _, .error _ => .isFalse (by simp)
    | .ok x, .ok y =>
      if h : x = y then .isTrue (by rw [h]) else .isFalse (by simp [h])

/-- `extract_video_id` (utils.py 41-55).  `Except` propagates the
`ValueError` that `urlparse` can raise. -/
def extract_video_id (vid : String) : Except String String :=
  if pyStartswith vid "http" = false then
    .ok vid
  else
    match pyUrlparse vid with
    | .error e => .error e
    | .ok u =>
      if (pyHostname u.netloc = some "www.youtube.com".data ∨
          pyHostname u.netloc = some "youtube.com".data) ∧
          u.path = "/watch".data then
        .ok (String.mk (firstVParam u.query vid.data))
      else if pyHostname u.netloc = some "youtu.be".data then
        .ok (String.mk (u.path.drop 1))    -- Python `path[1:]`
      else
        .ok vid

example : extract_video_id "abcdefghijk" = .ok "abcdefghijk" := by decide
example : extract_video_id "https://www.youtube.com/watch?v=abc" = .ok "abc" := by
  decide
example : extract_video_id "https://youtu.be/xyz" = .ok "xyz" := by decide
example : extract_video_id "http://[" = .error "Invalid IPv6 URL" := by decide
example : extract_video_id "HTTP://WWW.YOUTUBE.COM/watch?v=abc" =
    .ok "HTTP://WWW.YOUTUBE.COM/watch?v=abc" := by decide
example : extract_video_id "https://www.youtube.com/watch?v=&v=abc" = .ok "abc" := by
  decide
example : extract_video_id "httpfoo" = .ok "httpfoo" := by decide

example : extract_video_id "https://www.youtube.com/watch/?v=abc" =
    .ok "https://www.youtube.com/watch/?v=abc" := by decide
example : extract_video_id "https://youtube.com:443/watch?v=abc" = .ok "abc" := by
  decide
example : extract_video_id "https://user@youtu.be/abc/def" = .ok "abc/def" := by
  decide
example : extract_video_id "https://YouTu.Be/Xyz" = .ok "Xyz" := by decide
example : extract_video_id "https://www.youtube.com/watch?x=1&v=first&v=second" =
    .ok "first" := by decide
example : extract_video_id "https://www.youtube.com/watch;params?v=abc" =
    .ok "abc" := by decide
example : extract_video_id "https://www.youtube.com/watch?a#v=abc" =
    .ok "https://www.youtube.com/watch?a#v=abc" := by decide
example : extract_video_id "https://youtu.be" = .ok "" := by decide
example : extract_video_id "http://www.youtube.com/watch?v=" =
    .ok "http://www.youtube.com/watch?v=" := by decide
example : extract_video_id "http1://www.youtube.com/watch?v=abc" = .ok "abc" := by
  decide
example : extract_video_id "http://www.youtube.com./watch?v=abc" =
    .ok "http://www.youtube.com./watch?v=abc" := by decide
example : extract_video_id "http\t://www.youtube.com/watch?v=abc" = .ok "abc" := by
  decide
example : extract_video_id "https://www.youtube.com/watch?v=a%62cdefghijk" =
    .ok "abcdefghijk" := by decide
example : extract_video_id "https://www.youtube.com/watch?%76=abc" = .ok "abc" := by
  decide
example : extract_video_id "https://www.youtube.com/watch?v=a+b%2Bc" =
    .ok "a b+c" := by decide
example : extract_video_id "https://www.youtube.com/watch?v=%4" = .ok "%4" := by
  decide
example : extract_video_id "https://www.youtube.com/watch?v=%%41" = .ok "%A" := by
  decide
example : extract_video_id "https://www.youtube.com/watch?v=%3D&x=1" = .ok "=" := by
  decide
example : extract_video_id "http://℀.com" =
    .error "netloc contains invalid characters under NFKC normalization" := by
  decide

/-- Character class of the scanner's regex: `[a-zA-Z0-9_-]`. -/
def idChar (c : Char) : Bool :=
  asciiAlpha c || asciiDigit c || c == '_' || c == '-'

/-- One attempt of the regex `-([a-zA-Z0-9_-]{11})\.` anchored at the head of
the list: a literal `'-'`, then exactly 11 `idChar`s (the captured group),
then a literal `'.'`. -/
def matchAtHead : List Char → Option (List Char)
  | [] => none
  | c :: rest =>
    if c = '-' ∧ (rest.take 11).length = 11 ∧ (rest.take 11).all idChar = true ∧
        (rest.drop 11).head? = some '.' then
      some (rest.take 11)
    else
      none

/-- Python `re.search` of the pattern above: try each start position left to
right, returning the leftmost match's captured group. -/
def reSearchId : List Char → Option (List Char)
  | [] => none
  | c :: rest =>
    match matchAtHead (c :: rest) with
    | some m => some m
    | none => reSearchId rest

/-- One directory entry as seen by `Path.iterdir()`: its final name and
whether `is_file()` holds. -/
structure DirEntry where
  name : String
  is_file : Bool
deriving Repr, DecidableEq

/-- Python `set.add`: append only if absent (insertion-ordered model of a
`set` of strings; only membership is ever consumed). -/
def setAdd (s : List String) (x : String) : List String :=
  if x ∈ s then s else s ++ [x]

/-- Body of the scan loop (utils.py 64-68): a regular file whose name has a
regex match contributes its captured group to the set. -/
def scanStep (acc : List String) (e : DirEntry) : List String :=
  if e.is_file then
    match reSearchId e.name.data with
    | some m => setAdd acc (String.mk m)
    | none => acc
  else acc

/-- `get_downloaded_video_ids` (utils.py 58-69): collect the first regex match
of every regular file's name into a set. -/
def get_downloaded_video_ids (output_dir : List DirEntry) : List String :=
  output_dir.foldl scanStep []

example :
    get_downloaded_video_ids
      [⟨"Title A-aaaaaaaaaaa.mp4", true⟩, ⟨"Title B-bbbbbbbbbbb.mp4", true⟩] =
    ["aaaaaaaaaaa", "bbbbbbbbbbb"] := by decide

example : get_downloaded_video_ids [⟨"README.txt", true⟩] = [] := by decide

example :
    get_downloaded_video_ids [⟨"a-bb-ccccccccccc.mp4", true⟩] =
    ["ccccccccccc"] := by decide
example :
    get_downloaded_video_ids [⟨"weird--aaaaaaaaaa.b-ccccccccccc.mkv", true⟩] =
    ["-aaaaaaaaaa"] := by decide
example : get_downloaded_video_ids [⟨"x-1234567890.mp4", true⟩] = [] := by decide
example : get_downloaded_video_ids [⟨"x-123456789012.mp4", true⟩] = [] := by decide
example : get_downloaded_video_ids [⟨"tail-aaaaaaaaaaa", true⟩] = [] := by decide
example :
    get_downloaded_video_ids [⟨"Title A-aaaaaaaaaaa.mp4", false⟩] = [] := by decide

/-- The URL form the filter hands to the downloader: bare identifiers are
expanded to a watch URL, URL-shaped refs pass through (utils.py 88-91). -/
def toDownloadUrl (vid : String) : String :=
  if pyStartswith vid "http" then vid else "https://www.youtube.com/watch?v=" ++ vid

/-- Loop body of `filter_already_downloaded` (utils.py 82-91), with the two
accumulators `video_urls_to_download` and `skipped_count`; an exception from
`extract_video_id` propagates. -/
def filterLoop (downloaded_ids : List String) (pending : List String)
    (skipped : Nat) : List String → Except String (List String × Nat)
  | [] => .ok (pending, skipped)
  | vid :: rest =>
    match extract_video_id vid with
    | .error e => .error e
    | .ok actual_id =>
      if actual_id ∈ downloaded_ids then
        filterLoop downloaded_ids pending (skipped + 1) rest
      else
        filterLoop downloaded_ids (pending ++ [toDownloadUrl vid]) skipped rest

/-- `filter_already_downloaded` (utils.py 72-93). -/
def filter_already_downloaded (video_ids : List String)
    (output_dir : List DirEntry) : Except String (List String × Nat) :=
  let downloaded_ids := get_downloaded_video_ids output_dir
  filterLoop downloaded_ids [] 0 video_ids

example :
    filter_already_downloaded ["aaaaaaaaaaa", "ccccccccccc"]
      [⟨"Title A-aaaaaaaaaaa.mp4", true⟩] =
    .ok (["https://www.youtube.com/watch?v=ccccccccccc"], 1) := by decide

/-- `DownloadResult` (utils.py 108-114). -/
structure DownloadResult where
  success_count : Nat
  failure_count : Nat
  failed_urls : List String
deriving Repr, DecidableEq

/-- One call the download loop makes on its collaborators, in program order:
`progress.add_task` for the overall bar, `progress.add_task` per item,
`progress.update(overall_task, advance=1)`, `progress.remove_task`, and
`time.sleep` with its duration. -/
inductive PEvent where
  | addOverallTask (total : Nat)
  | addItemTask (url : String)
  | advanceOverall
  | removeItemTask
  | sleep (secs : Rat)
deriving Repr, DecidableEq

/-- The `for i, video_url in enumerate(video_urls)` loop of `download_videos`
(utils.py 171-191): `i` is the index of the head, `n` the full batch length.
Returns the successes counted, the failed URLs appended, and the collaborator
calls emitted, each in program order. -/
def downloadLoop (fetchOk : Nat → String → Bool) (delay : Rat)
    (rand : Nat → Rat) (n : Nat) :
    Nat → List String → Nat × List String × List PEvent
  | _, [] => (0, [], [])
  | i, video_url :: rest =>
    let ok := fetchOk i video_url
    let itemEvents :=
      [PEvent.addItemTask video_url, PEvent.advanceOverall, PEvent.removeItemTask]
    let sleepEvents :=
      if i < n - 1 then [PEvent.sleep (delay + rand i)] else []
    let prev := downloadLoop fetchOk delay rand n (i + 1) rest
    ((if ok then 1 else 0) + prev.1, (if ok then [] else [video_url]) ++ prev.2.1,
     itemEvents ++ sleepEvents ++ prev.2.2)

/-- `download_videos` (utils.py 117-197).  `fetchOk i url` is the outcome of
`YoutubeDL.download` for item `i` (`false` = it raised and the `except` arm
ran); `rand i` is the `random.uniform(0, jitter)` draw after item `i`.
Returns the `DownloadResult` and the trace of collaborator calls. -/
def download_videos (video_urls : List String) (fetchOk : Nat → String → Bool)
    (delay : Rat) (rand : Nat → Rat) : DownloadResult × List PEvent :=
  let n := video_urls.length
  let r := downloadLoop fetchOk delay rand n 0 video_urls
  (⟨r.1, r.2.1.length, r.2.1⟩, PEvent.addOverallTask n :: r.2.2)

example :
    (download_videos ["u1", "u2", "u3"] (fun i _ => !(i == 1)) 2 (fun _ => 1)).1 =
    ⟨2, 1, ["u2"]⟩ := by decide

example :
    (download_videos ["u1", "u2"] (fun _ _ => true) 2 (fun _ => 1)).2 =
    [.addOverallTask 2, .addItemTask "u1", .advanceOverall, .removeItemTask,
     .sleep (2 + 1), .addItemTask "u2", .advanceOverall, .removeItemTask] := by
  rfl

/-- Recognizer for the overall-progress `advance=1` update. -/
def isAdvance : PEvent → Bool
  | .advanceOverall => true
  | _ => false

/-- Recognizer for `time.sleep` calls. -/
def isSleep : PEvent → Bool
  | .sleep _ => true
  | _ => false

/-- The duration of a `time.sleep` call, if the event is one. -/
def sleepSecs : PEvent → Option Rat
  | .sleep q => some q
  | _ => none

/-- Events of the trace that are either an overall-progress advance or a
sleep (the two event kinds whose interleaving C8 constrains). -/
def isAdvanceOrSleep (e : PEvent) : Bool := isAdvance e || isSleep e

@[simp] lemma isAdvanceOrSleep_addOverallTask (n : Nat) :
    isAdvanceOrSleep (.addOverallTask n) = false := rfl

@[simp] lemma isAdvanceOrSleep_addItemTask (u : String) :
    isAdvanceOrSleep (.addItemTask u) = false := rfl

@[simp] lemma isAdvanceOrSleep_advanceOverall :
    isAdvanceOrSleep .advanceOverall = true := rfl

@[simp] lemma isAdvanceOrSleep_removeItemTask :
    isAdvanceOrSleep .removeItemTask = false := rfl

@[simp] lemma isAdvanceOrSleep_sleep (q : Rat) :
    isAdvanceOrSleep (.sleep q) = true := rfl

theorem downloadLoop_success_add_failed (f : Nat → String → Bool) (d : Rat)
    (r : Nat → Rat) (n : Nat) :
    ∀ (l : List String) (i : Nat),
      (downloadLoop f d r n i l).1 + (downloadLoop f d r n i l).2.1.length = l.length
  | [], _ => rfl
  | u :: rest, i => by
    have ih := downloadLoop_success_add_failed f d r n rest (i + 1)
    simp only [downloadLoop, List.length_append, List.length_cons]
    cases hf : f i u <;> simp <;> omega

theorem downloadLoop_failed_eq (f : Nat → String → Bool) (d : Rat)
    (r : Nat → Rat) (n : Nat) :
    ∀ (l : List String) (i : Nat),
      (downloadLoop f d r n i l).2.1 =
        ((List.enumFrom i l).filter fun p => !(f p.1 p.2)).map Prod.snd
  | [], _ => rfl
  | u :: rest, i => by
    have ih := downloadLoop_failed_eq f d r n rest (i + 1)
    simp only [downloadLoop, List.enumFrom]
    cases hf : f i u <;> simp [List.filter_cons, hf, ih]

theorem downloadLoop_advance_count (f : Nat → String → Bool) (d : Rat)
    (r : Nat → Rat) (n : Nat) :
    ∀ (l : List String) (i : Nat),
      ((downloadLoop f d r n i l).2.2.countP isAdvance) = l.length
  | [], _ => rfl
  | u :: rest, i => by
    have ih := downloadLoop_advance_count f d r n rest (i + 1)
    simp only [downloadLoop]
    by_cases hi : i < n - 1 <;>
      simp [hi, List.countP_append, List.countP_cons, isAdvance, ih]

theorem downloadLoop_sleeps (f : Nat → String → Bool) (d : Rat) (r : Nat → Rat) :
    ∀ (l : List String) (n i : Nat), i + l.length = n →
      (downloadLoop f d r n i l).2.2.filterMap sleepSecs =
        (List.range' i (n - 1 - i)).map fun j => d + r j
  | [], n, i, h => by
    have : n - 1 - i = 0 := by simp only [List.length_nil] at h; omega
    simp [downloadLoop, this]
  | u :: rest, n, i, h => by
    simp only [List.length_cons] at h
    have ih := downloadLoop_sleeps f d r rest n (i + 1) (by omega)
    simp only [downloadLoop, List.filterMap_append]
    by_cases hi : i < n - 1
    · have hn : n - 1 - i = (n - 1 - (i + 1)) + 1 := by omega
      rw [hn, List.range'_succ i (n - 1 - (i + 1)) 1]
      simp [hi, sleepSecs, ih]
    · have hrest : rest = [] := by
        have : rest.length = 0 := by omega
        exact List.length_eq_zero.mp this
      have hn : n - 1 - i = 0 := by omega
      subst hrest
      simp [hi, hn, sleepSecs, downloadLoop]

theorem downloadLoop_adv_sleep_trace (f : Nat → String → Bool) (d : Rat)
    (r : Nat → Rat) :
    ∀ (l : List String) (n i : Nat), i + l.length = n →
      (downloadLoop f d r n i l).2.2.filter isAdvanceOrSleep =
        ((List.range' i l.length).map fun j =>
          PEvent.advanceOverall ::
            (if j < n - 1 then [PEvent.sleep (d + r j)] else [])).flatten
  | [], n, i, h => by simp [downloadLoop]
  | u :: rest, n, i, h => by
    simp only [List.length_cons] at h
    have ih := downloadLoop_adv_sleep_trace f d r rest n (i + 1) (by omega)
    simp only [List.length_cons]
    rw [List.range'_succ i rest.length 1]
    simp only [downloadLoop, List.filter_append, List.map_cons, List.flatten_cons]
    by_cases hi : i < n - 1 <;> simp [hi, List.filter_cons, ih]

theorem sleep_sum_bounds (d j : Rat) (r : Nat → Rat)
    (hd : 0 ≤ d) (hr : ∀ i, 0 ≤ r i ∧ r i ≤ j) :
    ∀ k : Nat,
      d * k ≤ ((List.range k).map fun i => d + r i).sum ∧
      ((List.range k).map fun i => d + r i).sum ≤ (d + j) * k
  | 0 => by simp
  | k + 1 => by
    have ih := sleep_sum_bounds d j r hd hr k
    have h0 := (hr k).1
    have h1 := (hr k).2
    rw [List.range_succ, List.map_append, List.sum_append]
    push_cast
    constructor
    · have : d * (k + 1 : Rat) = d * k + d := by ring
      rw [this]
      simp only [List.map_cons, List.map_nil, List.sum_cons, List.sum_nil]
      linarith [ih.1]
    · have : (d + j) * (k + 1 : Rat) = (d + j) * k + (d + j) := by ring
      rw [this]
      simp only [List.map_cons, List.map_nil, List.sum_cons, List.sum_nil]
      linarith [ih.2]

/-- C1: for every pending list, every directory (the directory only enters the
collaborator options, not the loop) and every sequence of per-item fetch
outcomes, the returned result has `success_count + failure_count` equal to the
number of attempted items and `failure_count` equal to `failed_urls.length`. -/
theorem claim_C1_batch_counts (video_urls : List String)
    (fetchOk : Nat → String → Bool) (delay : Rat) (rand : Nat → Rat) :
    (download_videos video_urls fetchOk delay rand).1.success_count +
        (download_videos video_urls fetchOk delay rand).1.failure_count =
      video_urls.length ∧
    (download_videos video_urls fetchOk delay rand).1.failure_count =
      (download_videos video_urls fetchOk delay rand).1.failed_urls.length := by
  refine ⟨?_, rfl⟩
  exact downloadLoop_success_add_failed fetchOk delay rand video_urls.length
    video_urls 0

@[simp] lemma isAdvance_addOverallTask (n : Nat) :
    isAdvance (.addOverallTask n) = false := rfl

@[simp] lemma sleepSecs_addOverallTask (n : Nat) :
    sleepSecs (.addOverallTask n) = none := rfl

/-- C3: every fetcher error is caught: the error's URL is recorded in
`failed_urls` in processing order (the failing positions of the outcome
oracle, in order), the loop continues, a `DownloadResult` is still returned,
and the overall completion counter advances once per item whatever the
outcomes.  In particular, for 3 items where exactly item 2 raises:
`success_count = 2`, `failure_count = 1`, `failed_urls = [item2]`, and three
overall-progress advances are issued. -/
theorem claim_C3_failure_isolation (video_urls : List String)
    (fetchOk : Nat → String → Bool) (delay : Rat) (rand : Nat → Rat) :
    (download_videos video_urls fetchOk delay rand).1.failed_urls =
      ((List.enumFrom 0 video_urls).filter fun p => !(fetchOk p.1 p.2)).map
        Prod.snd ∧
    (download_videos video_urls fetchOk delay rand).2.countP isAdvance =
      video_urls.length ∧
    (download_videos ["u1", "u2", "u3"] (fun i _ => !(i == 1)) delay rand).1 =
      ⟨2, 1, ["u2"]⟩ ∧
    (download_videos ["u1", "u2", "u3"] (fun i _ => !(i == 1)) delay
        rand).2.countP isAdvance = 3 := by
  refine ⟨downloadLoop_failed_eq fetchOk delay rand _ video_urls 0, ?_, ?_, ?_⟩
  · have h := downloadLoop_advance_count fetchOk delay rand video_urls.length
      video_urls 0
    simp [download_videos, List.countP_cons, h]
  · have h1 := downloadLoop_failed_eq (fun i _ => !(i == 1)) delay rand 3
      ["u1", "u2", "u3"] 0
    have h3 : ((List.enumFrom 0 ["u1", "u2", "u3"]).filter
        fun p => !((fun (i : Nat) (_ : String) => !(i == 1)) p.1 p.2)).map
          Prod.snd = ["u2"] := by decide
    rw [h3] at h1
    have h2 := downloadLoop_success_add_failed (fun i _ => !(i == 1)) delay rand 3
      ["u1", "u2", "u3"] 0
    rw [h1] at h2
    have hs : (downloadLoop (fun i _ => !(i == 1)) delay rand 3 0
        ["u1", "u2", "u3"]).1 = 2 := by
      simp at h2
      omega
    simp [download_videos, hs, h1]
  · have h := downloadLoop_advance_count (fun i _ => !(i == 1)) delay rand 3
      ["u1", "u2", "u3"] 0
    simp [download_videos, List.countP_cons, h]

/-- C8: for every batch, the loop sleeps exactly once after every item except
the last (never after the final item, never on an empty batch): the sleep
durations of the trace are `delay + rand i` for `i = 0, …, N-2` in order,
every overall advance is followed by exactly one sleep except the last; and
when every draw lies in `[0, jitter]`, the total slept time lies between
`delay * (N-1)` and `(delay + jitter) * (N-1)`. -/
theorem claim_C8_pacing (video_urls : List String) (fetchOk : Nat → String → Bool)
    (delay jitter : Rat) (rand : Nat → Rat)
    (hdelay : 0 ≤ delay) (_hjitter : 0 ≤ jitter)
    (hrand : ∀ i, 0 ≤ rand i ∧ rand i ≤ jitter) :
    ((download_videos video_urls fetchOk delay rand).2.filterMap sleepSecs =
      (List.range (video_urls.length - 1)).map fun i => delay + rand i) ∧
    ((download_videos video_urls fetchOk delay rand).2.filter isAdvanceOrSleep =
      ((List.range video_urls.length).map fun j =>
        PEvent.advanceOverall ::
          (if j < video_urls.length - 1 then [PEvent.sleep (delay + rand j)]
           else [])).flatten) ∧
    delay * ((video_urls.length - 1 : Nat) : Rat) ≤
      ((download_videos video_urls fetchOk delay rand).2.filterMap sleepSecs).sum ∧
    ((download_videos video_urls fetchOk delay rand).2.filterMap sleepSecs).sum ≤
      (delay + jitter) * ((video_urls.length - 1 : Nat) : Rat) := by
  have hs := downloadLoop_sleeps fetchOk delay rand video_urls video_urls.length
    0 (by simp)
  have ht := downloadLoop_adv_sleep_trace fetchOk delay rand video_urls
    video_urls.length 0 (by simp)
  have hrange : List.range' 0 (video_urls.length - 1 - 0) =
      List.range (video_urls.length - 1) := by
    rw [List.range_eq_range', Nat.sub_zero]
  have h1 : (download_videos video_urls fetchOk delay rand).2.filterMap
      sleepSecs = (List.range (video_urls.length - 1)).map fun i => delay + rand i := by
    simp only [download_videos, List.filterMap_cons, sleepSecs_addOverallTask]
    rw [hs, hrange]
  refine ⟨h1, ?_, ?_⟩
  · simp only [download_videos, List.filter_cons, isAdvanceOrSleep_addOverallTask,
      Bool.false_eq_true, if_false]
    rw [ht, List.range_eq_range']
  · rw [h1]
    exact ⟨(sleep_sum_bounds delay jitter rand hdelay hrand _).1,
      (sleep_sum_bounds delay jitter rand hdelay hrand _).2⟩

theorem claim_C8_pacing_witness :
    (2 : Rat) * (((["a", "b", "c"] : List String).length - 1 : Nat) : Rat) ≤
      ((download_videos ["a", "b", "c"] (fun _ _ => true) 2
        (fun _ => 1/2)).2.filterMap sleepSecs).sum ∧
    ((download_videos ["a", "b", "c"] (fun _ _ => true) 2
        (fun _ => 1/2)).2.filterMap sleepSecs).sum ≤
      ((2 : Rat) + 1) * (((["a", "b", "c"] : List String).length - 1 : Nat) : Rat) :=
  (claim_C8_pacing ["a", "b", "c"] (fun _ _ => true) 2 1 (fun _ => 1/2)
    (by norm_num) (by norm_num) (fun i => ⟨by norm_num, by norm_num⟩)).2.2

/-- Whether the loop body of `filter_already_downloaded` skips `vid`: its
extracted identifier is already in the scanned inventory.  (When
`extract_video_id` raises, the loop aborts instead; the value `false` here is
arbitrary and unreachable on a run that returns.) -/
def isSkippedB (downloaded_ids : List String) (vid : String) : Bool :=
  match extract_video_id vid with
  | .ok actual_id => decide (actual_id ∈ downloaded_ids)
  | .error _ => false

lemma pyStartswith_watch (vid : String) :
    pyStartswith ("https://www.youtube.com/watch?v=" ++ vid) "http" = true := by
  have hd : ("https://www.youtube.com/watch?v=" ++ vid).data =
      'h' :: 't' :: 't' :: 'p' ::
        ("s://www.youtube.com/watch?v=".data ++ vid.data) := rfl
  have hp : ("http" : String).data = ['h', 't', 't', 'p'] := rfl
  simp [pyStartswith, hd, hp, pyStartswithL]

lemma toDownloadUrl_startswith (vid : String) :
    pyStartswith (toDownloadUrl vid) "http" = true := by
  by_cases h : pyStartswith vid "http" = true
  · simp [toDownloadUrl, h]
  · simp only [toDownloadUrl, h, if_false, Bool.not_eq_true] at h ⊢
    simp [h, pyStartswith_watch]

lemma length_filter_add_length_filter_not (l : List String) (q : String → Bool) :
    (l.filter q).length + (l.filter fun v => !(q v)).length = l.length := by
  induction l with
  | nil => rfl
  | cons a t ih =>
    by_cases h : q a = true <;> simp [List.filter_cons, h] <;> omega

lemma filterLoop_ok_eq (inv : List String) :
    ∀ (ids pending : List String) (skipped : Nat) (p : List String) (s : Nat),
      filterLoop inv pending skipped ids = .ok (p, s) →
      p = pending ++ (ids.filter fun v => !(isSkippedB inv v)).map toDownloadUrl ∧
      s = skipped + (ids.filter (isSkippedB inv)).length
  | [], pending, skipped, p, s, h => by
    simp only [filterLoop, Except.ok.injEq, Prod.mk.injEq] at h
    simp [h.1.symm, h.2.symm]
  | vid :: rest, pending, skipped, p, s, h => by
    rcases hx : extract_video_id vid with e | a
    · simp only [filterLoop, hx] at h
      exact Except.noConfusion h
    · simp only [filterLoop, hx] at h
      by_cases hm : a ∈ inv
      · rw [if_pos hm] at h
        have hsk : isSkippedB inv vid = true := by simp [isSkippedB, hx, hm]
        have ih := filterLoop_ok_eq inv rest pending (skipped + 1) p s h
        refine ⟨?_, ?_⟩
        · rw [ih.1]
          simp [List.filter_cons, hsk]
        · rw [ih.2]
          simp [List.filter_cons, hsk]
          omega
      · rw [if_neg hm] at h
        have hsk : isSkippedB inv vid = false := by simp [isSkippedB, hx, hm]
        have ih := filterLoop_ok_eq inv rest (pending ++ [toDownloadUrl vid])
          skipped p s h
        refine ⟨?_, ?_⟩
        · rw [ih.1]
          simp [List.filter_cons, hsk]
        · rw [ih.2]
          simp [List.filter_cons, hsk]

/-- C2: whenever `filter_already_downloaded` returns, the pending list is
exactly the input refs, in input order, whose extracted identifier is not in
the scanned inventory, each rewritten by `toDownloadUrl` (so skipped items
are dropped and relative order is preserved), and the skipped count is the
number of dropped refs.  In particular, with the inventory scanned from a
directory holding `Title A-aaaaaaaaaaa.mp4` and input
`["aaaaaaaaaaa", "ccccccccccc"]`, pending is the single watch URL for
`ccccccccccc` and one item is skipped. -/
theorem claim_C2_filter_order :
    (∀ (refs : List String) (dir : List DirEntry) (p : List String) (s : Nat),
      filter_already_downloaded refs dir = .ok (p, s) →
      p = (refs.filter fun v =>
            !(isSkippedB (get_downloaded_video_ids dir) v)).map toDownloadUrl ∧
      s = (refs.filter (isSkippedB (get_downloaded_video_ids dir))).length) ∧
    filter_already_downloaded ["aaaaaaaaaaa", "ccccccccccc"]
        [⟨"Title A-aaaaaaaaaaa.mp4", true⟩] =
      .ok (["https://www.youtube.com/watch?v=ccccccccccc"], 1) := by
  constructor
  · intro refs dir p s h
    have hl := filterLoop_ok_eq (get_downloaded_video_ids dir) refs [] 0 p s h
    simpa using hl
  · decide

theorem claim_C2_filter_order_witness :
    (["https://www.youtube.com/watch?v=ccccccccccc"] : List String) =
      ((["aaaaaaaaaaa", "ccccccccccc"] : List String).filter fun v =>
        !(isSkippedB
            (get_downloaded_video_ids [⟨"Title A-aaaaaaaaaaa.mp4", true⟩]) v)).map
        toDownloadUrl ∧
    1 = ((["aaaaaaaaaaa", "ccccccccccc"] : List String).filter
          (isSkippedB
            (get_downloaded_video_ids [⟨"Title A-aaaaaaaaaaa.mp4", true⟩]))).length :=
  claim_C2_filter_order.1 ["aaaaaaaaaaa", "ccccccccccc"]
    [⟨"Title A-aaaaaaaaaaa.mp4", true⟩]
    ["https://www.youtube.com/watch?v=ccccccccccc"] 1 (by decide)

/-- C9: whenever `filter_already_downloaded` returns a pair, every input ref
was either kept exactly once in `pending` or counted exactly once in
`skipped`: `pending.length + skipped = refs.length`. -/
theorem claim_C9_partition (refs : List String) (dir : List DirEntry)
    (p : List String) (s : Nat)
    (h : filter_already_downloaded refs dir = .ok (p, s)) :
    p.length + s = refs.length := by
  obtain ⟨hp, hs⟩ :=
    filterLoop_ok_eq (get_downloaded_video_ids dir) refs [] 0 p s h
  rw [hp, hs]
  simp only [List.nil_append, List.length_map, Nat.zero_add]
  rw [Nat.add_comm]
  exact length_filter_add_length_filter_not refs _

theorem claim_C9_partition_witness :
    (["https://www.youtube.com/watch?v=ccccccccccc"] : List String).length + 1 =
      (["aaaaaaaaaaa", "ccccccccccc"] : List String).length :=
  claim_C9_partition ["aaaaaaaaaaa", "ccccccccccc"]
    [⟨"Title A-aaaaaaaaaaa.mp4", true⟩]
    ["https://www.youtube.com/watch?v=ccccccccccc"] 1 (by decide)

/-- C10: every element of a returned pending list is URL-shaped: it starts
with `"http"` (a kept ref either already started with `"http"` and passed
through, or was prefixed with the watch-URL). -/
theorem claim_C10_pending_urls (refs : List String) (dir : List DirEntry)
    (p : List String) (s : Nat) (u : String)
    (h : filter_already_downloaded refs dir = .ok (p, s)) (hu : u ∈ p) :
    pyStartswith u "http" = true := by
  obtain ⟨hp, -⟩ :=
    filterLoop_ok_eq (get_downloaded_video_ids dir) refs [] 0 p s h
  rw [hp] at hu
  simp only [List.nil_append, List.mem_map] at hu
  obtain ⟨v, -, rfl⟩ := hu
  exact toDownloadUrl_startswith v

theorem claim_C10_pending_urls_witness :
    pyStartswith "https://www.youtube.com/watch?v=ccccccccccc" "http" = true :=
  claim_C10_pending_urls ["aaaaaaaaaaa", "ccccccccccc"]
    [⟨"Title A-aaaaaaaaaaa.mp4", true⟩]
    ["https://www.youtube.com/watch?v=ccccccccccc"] 1
    "https://www.youtube.com/watch?v=ccccccccccc" (by decide) (by decide)

/-- C6: whenever `filter_already_downloaded` returns, every kept ref (one
whose extracted identifier is not in the inventory) appears in pending as
the canonical watch URL `https://www.youtube.com/watch?v=<ref>` if it was a
bare identifier, and unchanged if it was already URL-shaped. -/
theorem claim_C6_url_rewrite (refs : List String) (dir : List DirEntry)
    (p : List String) (s : Nat) (vid : String)
    (h : filter_already_downloaded refs dir = .ok (p, s)) (hmem : vid ∈ refs)
    (hkeep : isSkippedB (get_downloaded_video_ids dir) vid = false) :
    (pyStartswith vid "http" = false →
      ("https://www.youtube.com/watch?v=" ++ vid) ∈ p) ∧
    (pyStartswith vid "http" = true → vid ∈ p) := by
  obtain ⟨hp, -⟩ :=
    filterLoop_ok_eq (get_downloaded_video_ids dir) refs [] 0 p s h
  have hin : vid ∈ refs.filter
      (fun v => !(isSkippedB (get_downloaded_video_ids dir) v)) :=
    List.mem_filter.mpr ⟨hmem, by simp [hkeep]⟩
  have hmap := List.mem_map_of_mem toDownloadUrl hin
  rw [hp]
  constructor
  · intro hh
    have e : toDownloadUrl vid = "https://www.youtube.com/watch?v=" ++ vid := by
      simp [toDownloadUrl, hh]
    rw [e] at hmap
    simpa using hmap
  · intro hh
    have e : toDownloadUrl vid = vid := by simp [toDownloadUrl, hh]
    rw [e] at hmap
    simpa using hmap

theorem claim_C6_url_rewrite_witness :
    (pyStartswith "ccccccccccc" "http" = false →
      ("https://www.youtube.com/watch?v=" ++ "ccccccccccc") ∈
        (["https://www.youtube.com/watch?v=ccccccccccc"] : List String)) ∧
    (pyStartswith "ccccccccccc" "http" = true →
      "ccccccccccc" ∈
        (["https://www.youtube.com/watch?v=ccccccccccc"] : List String)) :=
  claim_C6_url_rewrite ["aaaaaaaaaaa", "ccccccccccc"]
    [⟨"Title A-aaaaaaaaaaa.mp4", true⟩]
    ["https://www.youtube.com/watch?v=ccccccccccc"] 1 "ccccccccccc"
    (by decide) (by decide) (by decide)

/-- Declarative reading of one match of the pattern `-([a-zA-Z0-9_-]{11})\.`
starting at position `i` of `cs` and capturing `mid`: a literal hyphen at
`i`, then exactly 11 identifier characters, then a literal dot. -/
def MatchAt (cs : List Char) (i : Nat) (mid : List Char) : Prop :=
  ∃ pre post, cs = pre ++ '-' :: (mid ++ '.' :: post) ∧ pre.length = i ∧
    mid.length = 11 ∧ mid.all idChar = true

lemma MatchAt_le_length {cs : List Char} {i : Nat} {m : List Char}
    (h : MatchAt cs i m) : i + 13 ≤ cs.length := by
  obtain ⟨pre, post, heq, hpre, hmid, -⟩ := h
  rw [heq]
  simp [hpre, hmid]
  omega

lemma matchAtHead_eq_some_iff (cs : List Char) (m : List Char) :
    matchAtHead cs = some m ↔ MatchAt cs 0 m := by
  constructor
  · intro h
    cases cs with
    | nil => exact Option.noConfusion h
    | cons c rest =>
      simp only [matchAtHead] at h
      split at h
      · rename_i hc
        obtain ⟨hc1, hlen, hall, hdot⟩ := hc
        injection h with hm
        subst hm
        have hd : rest.drop 11 = '.' :: rest.drop 12 := by
          cases hds : rest.drop 11 with
          | nil => rw [hds] at hdot; exact Option.noConfusion hdot
          | cons d t =>
            rw [hds] at hdot
            have hdd : d = '.' := by simpa using hdot
            have ht : t = rest.drop 12 := by
              have := List.tail_drop rest 11
              rw [hds] at this
              simpa using this
            rw [hdd, ht]
        refine ⟨[], rest.drop 12, ?_, rfl, hlen, hall⟩
        simp only [List.nil_append, hc1]
        rw [← hd, List.take_append_drop]
      · exact Option.noConfusion h
  · intro h
    obtain ⟨pre, post, heq, hpre, hmid, hall⟩ := h
    have hpre0 : pre = [] := List.length_eq_zero.mp hpre
    subst hpre0
    simp only [List.nil_append] at heq
    subst heq
    have htake : (m ++ '.' :: post).take 11 = m := List.take_left' hmid
    have hdrop : (m ++ '.' :: post).drop 11 = '.' :: post := List.drop_left' hmid
    simp [matchAtHead, htake, hdrop, hmid, hall]

lemma MatchAt_cons_succ_iff (c : Char) (cs : List Char) (i : Nat)
    (m : List Char) : MatchAt (c :: cs) (i + 1) m ↔ MatchAt cs i m := by
  constructor
  · rintro ⟨pre, post, heq, hpre, hmid, hall⟩
    cases pre with
    | nil => simp at hpre
    | cons p pt =>
      simp only [List.cons_append, List.cons.injEq] at heq
      exact ⟨pt, post, heq.2, by simpa using hpre, hmid, hall⟩
  · rintro ⟨pre, post, heq, hpre, hmid, hall⟩
    exact ⟨c :: pre, post, by simp [heq], by simp [hpre], hmid, hall⟩

lemma reSearchId_eq_some_iff :
    ∀ (cs : List Char) (m : List Char),
      reSearchId cs = some m ↔
        ∃ i, MatchAt cs i m ∧ ∀ j mm, j < i → ¬ MatchAt cs j mm
  | [], m => by
    constructor
    · intro h
      exact Option.noConfusion h
    · rintro ⟨i, hi, -⟩
      have := MatchAt_le_length hi
      simp at this
  | c :: rest, m => by
    rcases h0 : matchAtHead (c :: rest) with _ | m0
    · have hnone0 : ∀ mm, ¬ MatchAt (c :: rest) 0 mm := by
        intro mm hmm
        rw [← matchAtHead_eq_some_iff] at hmm
        rw [h0] at hmm
        exact Option.noConfusion hmm
      have ih := reSearchId_eq_some_iff rest m
      constructor
      · intro h
        rw [reSearchId, h0] at h
        obtain ⟨i, hi, hleft⟩ := ih.mp h
        refine ⟨i + 1, (MatchAt_cons_succ_iff c rest i m).mpr hi, ?_⟩
        intro j mm hj
        cases j with
        | zero => exact hnone0 mm
        | succ j =>
          rw [MatchAt_cons_succ_iff]
          exact hleft j mm (by omega)
      · rintro ⟨i, hi, hleft⟩
        rw [reSearchId, h0]
        cases i with
        | zero => exact absurd hi (hnone0 m)
        | succ i =>
          refine ih.mpr ⟨i, (MatchAt_cons_succ_iff c rest i m).mp hi, ?_⟩
          intro j mm hj
          intro hmm
          exact hleft (j + 1) mm (by omega)
            ((MatchAt_cons_succ_iff c rest j mm).mpr hmm)
    · have hm0 : MatchAt (c :: rest) 0 m0 := (matchAtHead_eq_some_iff _ _).mp h0
      constructor
      · intro h
        rw [reSearchId, h0] at h
        injection h with hmm
        subst hmm
        exact ⟨0, hm0, by intro j mm hj; omega⟩
      · rintro ⟨i, hi, hleft⟩
        rw [reSearchId, h0]
        cases i with
        | zero =>
          rw [← matchAtHead_eq_some_iff, h0] at hi
          exact hi.symm ▸ rfl
        | succ i => exact absurd hm0 (hleft 0 m0 (by omega))

lemma mem_setAdd (s : List String) (x y : String) :
    y ∈ setAdd s x ↔ y ∈ s ∨ y = x := by
  by_cases h : x ∈ s
  · simp only [setAdd, if_pos h]
    constructor
    · exact Or.inl
    · rintro (hy | rfl)
      · exact hy
      · exact h
  · simp [setAdd, if_neg h]

lemma mem_scan_foldl (x : String) :
    ∀ (entries : List DirEntry) (acc : List String),
      x ∈ entries.foldl scanStep acc ↔
        x ∈ acc ∨ ∃ e ∈ entries, e.is_file = true ∧
          reSearchId e.name.data = some x.data
  | [], acc => by simp
  | e :: t, acc => by
    rw [List.foldl_cons, mem_scan_foldl x t (scanStep acc e)]
    have hstep : x ∈ scanStep acc e ↔
        x ∈ acc ∨ (e.is_file = true ∧ reSearchId e.name.data = some x.data) := by
      rcases hf : e.is_file with _ | _
      · simp [scanStep, hf]
      · rcases hre : reSearchId e.name.data with _ | mm
        · simp [scanStep, hf, hre]
        · have hss : scanStep acc e = setAdd acc (String.mk mm) := by
            simp [scanStep, hf, hre]
          rw [hss, mem_setAdd]
          constructor
          · rintro (hx | rfl)
            · exact Or.inl hx
            · exact Or.inr ⟨rfl, rfl⟩
          · rintro (hx | ⟨-, hsome⟩)
            · exact Or.inl hx
            · have hmx : mm = x.data := Option.some.inj hsome
              right
              rw [hmx]
    rw [hstep]
    simp only [List.mem_cons]
    constructor
    · rintro ((hx | he) | ⟨e2, he2, hp⟩)
      · exact Or.inl hx
      · exact Or.inr ⟨e, Or.inl rfl, he⟩
      · exact Or.inr ⟨e2, Or.inr he2, hp⟩
    · rintro (hx | ⟨e2, (rfl | he2), hp⟩)
      · exact Or.inl (Or.inl hx)
      · exact Or.inl (Or.inr hp)
      · exact Or.inr ⟨e2, he2, hp⟩

/-- C5: membership in the scanned inventory is exactly: some regular file
directly in the directory has a leftmost pattern match (literal hyphen, 11
identifier characters, literal dot, with no match starting earlier) whose
captured group is the identifier; and the two example filenames yield
exactly the two expected identifiers. -/
theorem claim_C5_scan (entries : List DirEntry) (x : String) :
    (x ∈ get_downloaded_video_ids entries ↔
      ∃ e ∈ entries, e.is_file = true ∧
        ∃ i, MatchAt e.name.data i x.data ∧
          ∀ j mm, j < i → ¬ MatchAt e.name.data j mm) ∧
    get_downloaded_video_ids
        [⟨"Title A-aaaaaaaaaaa.mp4", true⟩, ⟨"Title B-bbbbbbbbbbb.mp4", true⟩] =
      ["aaaaaaaaaaa", "bbbbbbbbbbb"] := by
  refine ⟨?_, by decide⟩
  rw [get_downloaded_video_ids, mem_scan_foldl]
  simp only [List.not_mem_nil, false_or, reSearchId_eq_some_iff]

lemma splitScheme_snd_mem (url : List Char) (c : Char)
    (h : c ∈ (splitScheme url).2) : c ∈ url := by
  simp only [splitScheme] at h
  split at h
  · exact (List.drop_sublist _ _).mem h
  · exact h

lemma mem_netloc_part (sp2 : List Char) (c : Char)
    (h : c ∈ (pyNetlocSplit sp2).1) : c ∈ sp2 := by
  rw [pyNetlocSplit] at h
  by_cases hb : pyStartswithL sp2 ['/', '/'] = true
  · rw [if_pos hb] at h
    simp only [splitNetloc] at h
    exact ((List.takeWhile_sublist _).trans (List.drop_sublist 2 sp2)).mem h
  · rw [if_neg hb] at h
    exact absurd h (List.not_mem_nil c)

/-- All-ASCII inputs with no square bracket at all trip neither `urlsplit`'s
bracketed netloc check nor the `_checknetloc` NFKC check (the netloc's
characters all come from the input), so parsing succeeds. -/
lemma pyUrlparse_ok_of_ascii_no_brackets (vid : String)
    (ha : vid.data.all asciiChar = true)
    (hl : '[' ∉ vid.data) (hr : ']' ∉ vid.data) :
    ∃ u, pyUrlparse vid = .ok u := by
  rcases hE : pyUrlparse vid with e | u
  · exfalso
    simp only [pyUrlparse] at hE
    have hmem : ∀ z, z ∈ (pyNetlocSplit
        (splitScheme ((vid.data.dropWhile c0ControlOrSpace).filter
          (fun c => unsafeUrlByte c = false))).2).1 → z ∈ vid.data := by
      intro z hz
      have h2 := mem_netloc_part _ z hz
      have h3 := splitScheme_snd_mem _ z h2
      have h4 := (List.mem_filter.mp h3).1
      exact (List.dropWhile_sublist _).mem h4
    split at hE
    · rename_i hcond
      rcases hcond with ⟨h1, -⟩ | ⟨h1, -⟩
      · exact hl (hmem _ h1)
      · exact hr (hmem _ h1)
    · split at hE
      · rename_i hcond2
        obtain ⟨-, hfalse⟩ := hcond2
        have hta : (pyNetlocSplit
            (splitScheme ((vid.data.dropWhile c0ControlOrSpace).filter
              (fun c => unsafeUrlByte c = false))).2).1.all asciiChar = true := by
          rw [List.all_eq_true]
          intro z hz
          exact List.all_eq_true.mp ha z (hmem z hz)
        rw [hta] at hfalse
        exact Bool.noConfusion hfalse
      · exact Except.noConfusion hE
  · exact ⟨u, rfl⟩

/-- C7 counterexample: the claim "never raises" is false — on the input
`"http://["` the source propagates `urlparse`'s
`ValueError("Invalid IPv6 URL")`. -/
theorem claim_C7_counterexample :
    extract_video_id "http://[" = .error "Invalid IPv6 URL" := by decide

/-- C7 (amended): for every input string consisting of ASCII characters and
containing no square bracket, `extract_video_id` returns a string and never
raises.  (Unamended, the claim fails twice: a netloc with mismatched
brackets makes `urlparse` raise `ValueError("Invalid IPv6 URL")` — see the
counterexample — and a non-ASCII netloc can make `urlparse` raise the
`_checknetloc` NFKC `ValueError`; the source catches neither.) -/
theorem claim_C7_amended_total (vid : String)
    (ha : vid.data.all asciiChar = true)
    (hl : '[' ∉ vid.data) (hr : ']' ∉ vid.data) :
    ∃ r, extract_video_id vid = .ok r := by
  by_cases hs : pyStartswith vid "http" = false
  · refine ⟨vid, ?_⟩
    simp [extract_video_id, hs]
  · obtain ⟨u, hu⟩ := pyUrlparse_ok_of_ascii_no_brackets vid ha hl hr
    simp only [extract_video_id, hs, if_false, hu]
    repeat' split
    all_goals exact ⟨_, rfl⟩

theorem claim_C7_amended_total_witness :
    ∃ r, extract_video_id "https://www.youtube.com/watch?v=abc" = .ok r :=
  claim_C7_amended_total "https://www.youtube.com/watch?v=abc" (by decide)
    (by decide) (by decide)

/-- Modelled from the claim text of C4 (and spec 4.1): whether the input
carries a URL scheme prefix, per the URL grammar of the parser model — a
leading ASCII letter, then scheme characters, then `':'`. -/
def hasSchemePrefixB (vid : String) : Bool :=
  decide ((splitScheme vid.data).1 ≠ [])

/-- The claim's "path with the leading separator stripped". -/
def stripLeadingSep : List Char → List Char
  | '/' :: rest => rest
  | cs => cs

/-- Modelled from the claim text of C4, as stated: an input with no URL
scheme prefix is returned unchanged; a URL on the canonical long-form host
with a `/watch` path returns the `v` query parameter (or the input if `v` is
absent); a URL on the short-link host returns its path with the leading
separator stripped; any other URL form is returned unchanged. -/
def normalize_claim (vid : String) : String :=
  if hasSchemePrefixB vid = false then
    vid
  else
    match pyUrlparse vid with
    | .error _ => vid
    | .ok u =>
      if (pyHostname u.netloc = some "www.youtube.com".data ∨
          pyHostname u.netloc = some "youtube.com".data) ∧
          u.path = "/watch".data then
        String.mk (firstVParam u.query vid.data)
      else if pyHostname u.netloc = some "youtu.be".data then
        String.mk (stripLeadingSep u.path)
      else
        vid

/-- The case analysis of C4 as amended: the gate is `startswith("http")`
(not the presence of a URL scheme prefix), and parsing can raise the
bracket-mismatch `ValueError` instead of returning. -/
def normalize_spec (vid : String) : Except String String :=
  if pyStartswith vid "http" = false then
    .ok vid
  else
    match pyUrlparse vid with
    | .error e => .error e
    | .ok u =>
      if (pyHostname u.netloc = some "www.youtube.com".data ∨
          pyHostname u.netloc = some "youtube.com".data) ∧
          u.path = "/watch".data then
        .ok (String.mk (firstVParam u.query vid.data))
      else if pyHostname u.netloc = some "youtu.be".data then
        .ok (String.mk (stripLeadingSep u.path))
      else
        .ok vid

lemma pyNetlocSplit_started {url : List Char}
    (h : (pyNetlocSplit url).1 ≠ []) : pyStartswithL url ['/', '/'] = true := by
  by_contra hb
  apply h
  rw [pyNetlocSplit, if_neg hb]

lemma pyNetlocSplit_eq_splitNetloc (url : List Char)
    (hb : pyStartswithL url ['/', '/'] = true) :
    pyNetlocSplit url = splitNetloc url := by
  rw [pyNetlocSplit, if_pos hb]

lemma splitParams_fst_cons_slash (xs : List Char) :
    ∃ t, (splitParams ('/' :: xs)).1 = '/' :: t := by
  have hmem : '/' ∈ ('/' :: xs) := List.mem_cons_self '/' xs
  rcases ha2 : (((('/' :: xs).reverse.takeWhile
      (fun c => c ≠ '/')).reverse).dropWhile (fun c => c ≠ ';')) with _ | ⟨a, tl⟩
  · refine ⟨xs, ?_⟩
    simp only [splitParams, if_pos hmem, ha2]
  · obtain ⟨hs, hupto⟩ :
        ∃ hs, (('/' :: xs).reverse.dropWhile (fun c => c ≠ '/')).reverse =
          '/' :: hs := by
      have hne : ('/' :: xs).reverse.dropWhile (fun c => c ≠ '/') ≠ [] := by
        intro h0
        have hall := List.dropWhile_eq_nil_iff.mp h0
        have hm : '/' ∈ ('/' :: xs).reverse := by simp
        have := hall _ hm
        simp at this
      rcases hdr : (('/' :: xs).reverse.dropWhile (fun c => c ≠ '/')).reverse
          with _ | ⟨hh, hhs⟩
      · exfalso
        apply hne
        simpa using congrArg List.reverse hdr
      · have hsplit := List.takeWhile_append_dropWhile
          (fun c => decide (c ≠ '/')) (('/' :: xs).reverse)
        have hrev := congrArg List.reverse hsplit
        rw [List.reverse_append, List.reverse_reverse, hdr] at hrev
        have hhh : hh = '/' := by
          have := congrArg List.head? hrev
          simpa using this
        exact ⟨hhs, by rw [hhh]⟩
    refine ⟨hs ++ (((('/' :: xs).reverse.takeWhile
      (fun c => c ≠ '/')).reverse).takeWhile (fun c => c ≠ ';')), ?_⟩
    simp only [splitParams, if_pos hmem, ha2, hupto]
    simp

lemma url5_shape (R : List Char) :
    ((R.dropWhile (fun c => c ≠ '/' ∧ c ≠ '?' ∧ c ≠ '#')).takeWhile
        (fun c => c ≠ '#')).takeWhile (fun c => c ≠ '?') = [] ∨
    ∃ t, ((R.dropWhile (fun c => c ≠ '/' ∧ c ≠ '?' ∧ c ≠ '#')).takeWhile
        (fun c => c ≠ '#')).takeWhile (fun c => c ≠ '?') = '/' :: t := by
  rcases hc : R.dropWhile (fun c => c ≠ '/' ∧ c ≠ '?' ∧ c ≠ '#') with _ | ⟨c, t⟩
  · left
    rfl
  · have hpc : (fun c => decide (c ≠ '/' ∧ c ≠ '?' ∧ c ≠ '#')) c = false := by
      have := List.head?_dropWhile_not
        (fun c => decide (c ≠ '/' ∧ c ≠ '?' ∧ c ≠ '#')) R
      rw [hc] at this
      simpa using this
    have hcases : c = '/' ∨ c = '?' ∨ c = '#' := by
      by_contra hno
      push_neg at hno
      simp [hno.1, hno.2.1, hno.2.2] at hpc
    rcases hcases with rfl | rfl | rfl
    · right
      refine ⟨(t.takeWhile (fun c => c ≠ '#')).takeWhile (fun c => c ≠ '?'), ?_⟩
      simp [List.takeWhile_cons]
    · left
      simp [List.takeWhile_cons]
    · left
      simp [List.takeWhile_cons]

lemma pp_shape (sp1 url5 : List Char)
    (h : url5 = [] ∨ ∃ t, url5 = '/' :: t) :
    (if sp1 ∈ usesParams ∧ ';' ∈ url5 then splitParams url5
     else (url5, [])).1 = [] ∨
    ∃ t, (if sp1 ∈ usesParams ∧ ';' ∈ url5 then splitParams url5
          else (url5, [])).1 = '/' :: t := by
  rcases h with rfl | ⟨t, rfl⟩
  · left
    rw [if_neg]
    rintro ⟨-, hsemi⟩
    simp at hsemi
  · by_cases hcond : sp1 ∈ usesParams ∧ ';' ∈ ('/' :: t)
    · rw [if_pos hcond]
      exact Or.inr (splitParams_fst_cons_slash t)
    · rw [if_neg hcond]
      exact Or.inr ⟨t, rfl⟩

/-- When parsing succeeds and a netloc is present, the parsed path is empty
or starts with `'/'` (the path begins at the delimiter that ended the
netloc, and only prefix operations follow). -/
lemma pyUrlparse_path_slash (vid : String) (u : PyParseResult)
    (h : pyUrlparse vid = .ok u) (hn : u.netloc ≠ []) :
    u.path = [] ∨ ∃ t, u.path = '/' :: t := by
  simp only [pyUrlparse] at h
  split at h
  · exact Except.noConfusion h
  · split at h
    · exact Except.noConfusion h
    · injection h with h2
      subst h2
      dsimp only at hn ⊢
      have hb := pyNetlocSplit_started hn
      rw [pyNetlocSplit_eq_splitNetloc _ hb]
      simp only [splitNetloc]
      exact pp_shape _ _ (url5_shape _)

/-- C4 counterexample: the claim's case analysis, as stated, prescribes
extracting `"abcdefghijk"` from `"ftp://www.youtube.com/watch?v=abcdefghijk"`
(a URL with a scheme prefix, on the canonical long-form host, with a `/watch`
path), but the source's gate is `startswith("http")`, so it returns the
input unchanged. -/
theorem claim_C4_counterexample :
    extract_video_id "ftp://www.youtube.com/watch?v=abcdefghijk" ≠
      Except.ok (normalize_claim "ftp://www.youtube.com/watch?v=abcdefghijk") := by
  decide

/-- C4 (amended): over the inputs where this embedding of the URL
collaborators is exact — ASCII strings with no square bracket whose
percent-escapes denote single ASCII bytes — `extract_video_id` implements
exactly the claim's case analysis once the first gate reads "does not start
with `http`" instead of "has no URL scheme prefix" (and with parsing allowed
to raise the bracket-mismatch `ValueError`): inputs not starting with `http`
pass through unchanged; long-form-host `/watch` URLs yield the first
non-empty `v` parameter value, decoded, or the input when `v` is absent;
short-link-host URLs yield the path with the leading separator stripped;
every other such input is returned unchanged.  (The hypotheses only scope
the claim to the exact domain; the two modelled functions agree
everywhere.) -/
theorem claim_C4_amended_case_analysis (vid : String)
    (_ha : vid.data.all asciiChar = true)
    (_hl : '[' ∉ vid.data) (_hr : ']' ∉ vid.data)
    (_hq : singleByteEscapes vid.data = true) :
    extract_video_id vid = normalize_spec vid := by
  unfold extract_video_id normalize_spec
  by_cases hs : pyStartswith vid "http" = false
  · rw [if_pos hs, if_pos hs]
  · rw [if_neg hs, if_neg hs]
    rcases hu : pyUrlparse vid with e | u
    · rfl
    · dsimp only
      by_cases h1 : (pyHostname u.netloc = some "www.youtube.com".data ∨
          pyHostname u.netloc = some "youtube.com".data) ∧
          u.path = "/watch".data
      · rw [if_pos h1, if_pos h1]
      · rw [if_neg h1, if_neg h1]
        by_cases h2 : pyHostname u.netloc = some "youtu.be".data
        · rw [if_pos h2, if_pos h2]
          have hn : u.netloc ≠ [] := by
            intro h0
            rw [h0] at h2
            simp [pyHostname] at h2
          rcases pyUrlparse_path_slash vid u hu hn with hp | ⟨t, hp⟩
          · rw [hp]
            rfl
          · rw [hp]
            rfl
        · rw [if_neg h2, if_neg h2]

theorem claim_C4_amended_case_analysis_witness :
    extract_video_id "https://www.youtube.com/watch?v=abcdefghijk" =
      normalize_spec "https://www.youtube.com/watch?v=abcdefghijk" :=
  claim_C4_amended_case_analysis "https://www.youtube.com/watch?v=abcdefghijk"
    (by decide) (by decide) (by decide) (by decide)
